import Mathlib

/-!
Verification of the tldrstory indexing module (src/python/tldrstory/index.py)
against its natural-language specification.

The Python code is shallowly embedded over `List Char` strings:

* `Index.baseurl` is the composition of four rewriting passes, one per line of
  the Python function: the `split("?", 1)[0]` parameter cut, the
  `re.sub(r"^http(s)?:\/\/(www.)?", "", url)` scheme strip, the
  `re.sub(r"(index.htm(l)?)$", "", url)` trailing-document strip, and the
  `re.sub(r"\/?$", "", url)` trailing-slash strip.  The Python regex
  subtleties are modelled exactly: an unescaped `.` matches any character
  except a newline, and `$` matches at the end of the string or just before a
  final newline; `re.sub` with a `$`-anchored pattern removes at most one
  occurrence.
* `Index.accept` performs the SQL query
  `SELECT 1 FROM articles WHERE Id=? OR Reference LIKE ?` with the pattern
  `"%" + baseurl + "%"`; SQLite `LIKE` is modelled with its default
  semantics: `%` matches any sequence, `_` any single character, and letter
  comparison is ASCII case-insensitive.  The ignore patterns
  (`re.search(pattern, url)`) are modelled by a small regular-expression AST
  with derivative-based matching, searched at every position.
* `Index.execute` is modelled as a fold over the submissions returned by the
  collaborating platform client, producing both the final store state and the
  trace of store/index events; the classifier and the embedding index are
  collaborator parameters.
* `Index.schedule`'s cron computation (the croniter library, not part of this
  repository) and the SQLite store module (not under src/) are modelled from
  the spec where indicated.
-/

namespace Tldrstory

/-- One step of Python `url.split("?", 1)[0]`: keep everything strictly before
the first `'?'`. -/
def dropParams : List Char → List Char
  | [] => []
  | c :: rest => if c = '?' then [] else c :: dropParams rest

/-- The `(www.)?` part of `re.sub(r"^http(s)?:\/\/(www.)?", "", url)`: after
the scheme is removed, greedily drop a leading `"www"` plus one arbitrary
character; the unescaped regex `.` matches any character except `'\n'`. -/
def dropWww (l : List Char) : List Char :=
  match l with
  | 'w' :: 'w' :: 'w' :: c :: rest => if c = '\n' then l else rest
  | _ => l

/-- The anchored substitution `re.sub(r"^http(s)?:\/\/(www.)?", "", url)`:
remove a leading `"http://"` or `"https://"`, then optionally `"www"` plus
any character (via `dropWww`).  With no scheme prefix the string is
unchanged (the optional `www` group alone cannot start a match because the
scheme part of the pattern is mandatory). -/
def dropScheme (l : List Char) : List Char :=
  match l with
  | 'h' :: 't' :: 't' :: 'p' :: 's' :: ':' :: '/' :: '/' :: rest => dropWww rest
  | 'h' :: 't' :: 't' :: 'p' :: ':' :: '/' :: '/' :: rest => dropWww rest
  | _ => l

/-- Helper for `re.sub(r"(index.htm(l)?)$", "", url)`, working on the
REVERSED string: if it starts with the reversal of `index<c>htm(l)`, where
`<c>` is the regex `.` (any character except `'\n'`), return the rest
(reversed).  The ten-character alternative (with the optional `l`, tried
first, matching the regex's greedy `(l)?`) and the nine-character
alternative are structurally disjoint (first character `'l'` vs `'m'`). -/
def dropIndexHtmRev (l : List Char) : Option (List Char) :=
  match l with
  | [] => none
  | a :: rest =>
      if a = 'l' then
        match rest with
        | b :: c :: d :: e :: f :: g :: h :: i :: j :: rest2 =>
            if b = 'm' ∧ c = 't' ∧ d = 'h' ∧ ¬ e = '\n' ∧ f = 'x' ∧ g = 'e' ∧ h = 'd' ∧ i = 'n' ∧ j = 'i' then
              some rest2
            else none
        | _ => none
      else if a = 'm' then
        match rest with
        | b :: c :: d :: e :: f :: g :: h :: i :: rest2 =>
            if b = 't' ∧ c = 'h' ∧ ¬ d = '\n' ∧ e = 'x' ∧ f = 'e' ∧ g = 'd' ∧ h = 'n' ∧ i = 'i' then
              some rest2
            else none
        | _ => none
      else none

/-- The substitution `re.sub(r"(index.htm(l)?)$", "", url)`.  Python's `$`
(without MULTILINE) matches at the end of the string or just before a final
`'\n'`, so the pattern is stripped from the true end, or from just before a
final newline with the newline kept. -/
def dropIndexHtm (l : List Char) : List Char :=
  match l.reverse with
  | [] => l
  | c :: rest =>
      if c = '\n' then
        match dropIndexHtmRev rest with
        | some r => ('\n' :: r).reverse
        | none => l
      else
        match dropIndexHtmRev (c :: rest) with
        | some r => r.reverse
        | none => l

/-- The substitution `re.sub(r"\/?$", "", url)`.  A single left-to-right pass
removes at most ONE `'/'`: the one standing at the end of the string, or just
before a final `'\n'` (Python `$` again); the later empty matches at `$`
positions replace nothing. -/
def dropSlash (l : List Char) : List Char :=
  match l.reverse with
  | '/' :: rest => rest.reverse
  | '\n' :: '/' :: rest => ('\n' :: rest).reverse
  | _ => l

/-- `Index.baseurl`: the composition of the four passes, in source order. -/
def baseurl (l : List Char) : List Char :=
  dropSlash (dropIndexHtm (dropScheme (dropParams l)))

/-- `Index.baseurl` on `String`s. -/
def baseurlS (s : String) : String := ⟨baseurl s.data⟩

/-- ASCII lower-casing of a single character, as used by SQLite's default
`LIKE` comparison (case folding applies to `A`-`Z` only). -/
def charLower (c : Char) : Char :=
  if 'A' ≤ c ∧ c ≤ 'Z' then Char.ofNat (c.toNat + 32) else c

/-- SQLite `LIKE` with default settings: `%` matches any sequence of zero or
more characters, `_` matches any single character, and other characters
compare ASCII case-insensitively.  First argument is the pattern, second the
text. -/
def likeMatch : List Char → List Char → Bool
  | [], t => t.isEmpty
  | c :: p, t =>
      if c = '%' then (t.tails).any fun t2 => likeMatch p t2
      else
        match t with
        | [] => false
        | d :: t2 => (if c = '_' then true else charLower c == charLower d) && likeMatch p t2

/-- The pattern `"%" + baseurl + "%"` bound to the `Reference LIKE ?`
placeholder in `Index.accept`. -/
def likePattern (b : List Char) : List Char := '%' :: (b ++ ['%'])

/-- Literal, case-sensitive substring containment.  This is the spec's words
("contains ... as a substring") rendered directly, used to compare the
spec's description of the duplicate check against the SQL `LIKE` the code
performs. -/
def hasSubstring (needle hay : List Char) : Bool :=
  (hay.tails).any fun t => needle.isPrefixOf t

/-- Abstract syntax of the configured ignore patterns (Python regular
expressions are configuration data; their denotation is modelled by this
AST).  `dot` is the regex `.` (any character except newline). -/
inductive Regex where
  | emp : Regex
  | eps : Regex
  | chr : Char → Regex
  | dot : Regex
  | alt : Regex → Regex → Regex
  | cat : Regex → Regex → Regex
  | star : Regex → Regex
deriving DecidableEq, Repr

/-- Whether a regex accepts the empty string. -/
def nullable : Regex → Bool
  | .emp => false
  | .eps => true
  | .chr _ => false
  | .dot => false
  | .alt a b => nullable a || nullable b
  | .cat a b => nullable a && nullable b
  | .star _ => true

/-- Brzozowski derivative of a regex with respect to one character. -/
def deriv (r : Regex) (c : Char) : Regex :=
  match r with
  | .emp => .emp
  | .eps => .emp
  | .chr d => if d = c then .eps else .emp
  | .dot => if c = '\n' then .emp else .eps
  | .alt a b => .alt (deriv a c) (deriv b c)
  | .cat a b => .alt (.cat (deriv a c) b) (if nullable a then deriv b c else .emp)
  | .star a => .cat (deriv a c) (.star a)

/-- Whole-string regex match. -/
def rmatch (r : Regex) (s : List Char) : Bool := nullable (s.foldl deriv r)

/-- Python `re.search(pattern, s)`: some (possibly empty) contiguous
substring of `s`, starting at any position, matches the pattern. -/
def rsearch (r : Regex) (s : List Char) : Bool :=
  (s.tails).any fun t => (t.inits).any fun p => rmatch r p

/-- A row of the `articles` table.  Column names `Id`, `Title`, `Reference`
are those used by the SQL in index.py; the remaining column mapping is
modelled from the spec (the SQLite store module is not under src/): the
article tuple `(id, subreddit-lowercased, created-date, title, url,
indexed-at)` is stored positionally, with the submission's raw URL in the
`Reference` column. -/
structure Article where
  id : List Char
  source : List Char
  date : Int
  title : List Char
  reference : List Char
  indexed : List Char
deriving DecidableEq, Repr

/-- A submission record as produced by the platform client (collaborator). -/
structure Submission where
  id : List Char
  url : List Char
  is_self : Bool
  title : List Char
  created_utc : Int
  subreddit : List Char
deriving DecidableEq, Repr

/-- The duplicate-lookup query of `Index.accept`:
`SELECT 1 FROM articles WHERE Id=? OR Reference LIKE ?` with parameters
`[submission.id, "%" + baseurl + "%"]`; `fetchone()` is truthy iff some row
satisfies the disjunction. -/
def dbHit (articles : List Article) (s : Submission) : Bool :=
  articles.any fun a => a.id == s.id || likeMatch (likePattern (baseurl s.url)) a.reference

/-- `Index.accept`: the submission passes iff the lookup finds nothing, the
submission is not a self post, its URL starts with `"http"`, and no ignore
pattern matches anywhere in the URL. -/
def accept (articles : List Article) (s : Submission) (ignore : List Regex) : Bool :=
  !(dbHit articles s) && !s.is_self && "http".data.isPrefixOf s.url &&
    ignore.all fun pat => !(rsearch pat s.url)

/-- The outcome of the duplicate-lookup query as seen by `Index.accept`:
`some ()` when `fetchone()` returns a row, `none` when it does not. -/
def acceptQuery (articles : List Article) (s : Submission) : Option Unit :=
  if dbHit articles s then some () else none

/-- `Index.accept` with the store lookup as an explicit fallible step:
`database.cur.execute`/`fetchone` may raise, which is modelled by `Except`.
A raised error propagates out of `accept` before any of the remaining
conditions are evaluated, exactly as a Python exception would. -/
def acceptChecked (queryResult : Except (List Char) (Option Unit))
    (s : Submission) (ignore : List Regex) : Except (List Char) Bool :=
  match queryResult with
  | .error e => .error e
  | .ok row =>
      .ok (row.isNone && !s.is_self && "http".data.isPrefixOf s.url &&
        ignore.all fun pat => !(rsearch pat s.url))

/-- ASCII lower-casing of a string, modelling
`submission.subreddit.display_name.lower()`. -/
def lowerStr (l : List Char) : List Char := l.map charLower

/-- A persisted label row: `(article id, label-set name, classifier row)`.
In the source the tuple is `(None, submission.id, name) + x` where the
leading `None` is the store's auto-assigned row id and `x` is the
classifier's `(value, score)` row, carried here as an opaque `α`. -/
abbrev LabelRow (α : Type) : Type := List Char × List Char × α

/-- The article tuple built in `Index.execute` for an accepted submission:
`(submission.id, subreddit-lowercased, created date, title, url, now)`. -/
def mkArticle (s : Submission) (now : List Char) : Article :=
  { id := s.id, source := lowerStr s.subreddit, date := s.created_utc,
    title := s.title, reference := s.url, indexed := now }

/-- The label rows built in `Index.execute` for one accepted submission: for
each configured label set `(name, values)`, in configuration order, one row
per classifier result, in the order the classifier returns them. -/
def mkLabels {α : Type} (classifier : List Char → List (List Char) → List α)
    (labelSets : List (List Char × List (List Char))) (s : Submission) : List (LabelRow α) :=
  labelSets.flatMap fun nc => (classifier s.title nc.2).map fun x => (s.id, nc.1, x)

/-- The store state: persisted articles and label rows.  `database.save`
(SQLite module not under src/; modelled from the spec) appends an article
and its labels as one logical unit. -/
structure Store (α : Type) where
  articles : List Article
  labels : List (LabelRow α)
deriving DecidableEq

/-- The body of the per-submission loop in `Index.execute`: filter with
`accept`; if accepted, build the article and label rows and save them as one
unit; otherwise leave the store untouched. -/
def processSubmission {α : Type} (classifier : List Char → List (List Char) → List α)
    (labelSets : List (List Char × List (List Char))) (ignore : List Regex)
    (now : List Char) (db : Store α) (s : Submission) : Store α :=
  if accept db.articles s ignore then
    { articles := db.articles ++ [mkArticle s now],
      labels := db.labels ++ mkLabels classifier labelSets s }
  else db

/-- The ingestion loop of `Index.execute` over the (flattened) submission
stream of all configured queries, starting from a given store state. -/
def ingest {α : Type} (classifier : List Char → List (List Char) → List α)
    (labelSets : List (List Char × List (List Char))) (ignore : List Regex)
    (now : List Char) : List Submission → Store α → Store α
  | [], db => db
  | s :: rest, db =>
      ingest classifier labelSets ignore now rest
        (processSubmission classifier labelSets ignore now db s)

/-- Observable store/index events of one `Index.execute` run, in program
order: `saveRow` is `database.save((article, labels))`, `complete` is
`database.complete()`, `indexBuild` is the single bulk
`embeddings.index(articles)` call with its `(id, title, None)` triples,
`indexSave` is `embeddings.save(path)`, `closeStore` is `database.close()`. -/
inductive Event (α : Type) where
  | saveRow : Article → List (LabelRow α) → Event α
  | complete : Event α
  | indexBuild : List (List Char × List Char × Option Unit) → Event α
  | indexSave : List Char → Event α
  | closeStore : Event α

/-- Whether an event is a per-submission `database.save` call. -/
def isSaveRow {α : Type} : Event α → Bool
  | .saveRow _ _ => true
  | _ => false

/-- One per-submission step of `Index.execute`, tracking both the store state
and the event trace. -/
def stepEv {α : Type} (classifier : List Char → List (List Char) → List α)
    (labelSets : List (List Char × List (List Char))) (ignore : List Regex)
    (now : List Char) (acc : Store α × List (Event α)) (s : Submission) :
    Store α × List (Event α) :=
  if accept acc.1.articles s ignore then
    (processSubmission classifier labelSets ignore now acc.1 s,
     acc.2 ++ [Event.saveRow (mkArticle s now) (mkLabels classifier labelSets s)])
  else acc

/-- `Index.embeddings`: read all `(Id, Title)` pairs from the store, build
the flat `(uid, text, None)` list over exactly those rows, submit it in one
bulk `index` call, then save the index to the configured path. -/
def embeddingsModel {α : Type} (path : List Char) (db : Store α) : List (Event α) :=
  [Event.indexBuild (db.articles.map fun a => (a.id, a.title, (none : Option Unit))),
   Event.indexSave path]

/-- `Index.execute` end to end: run the ingestion loop from an empty store
over the submission stream, then `database.complete()`, then
`Index.embeddings`, then `database.close()`. -/
def executeModel {α : Type} (classifier : List Char → List (List Char) → List α)
    (labelSets : List (List Char × List (List Char))) (ignore : List Regex)
    (now : List Char) (path : List Char) (subs : List Submission) :
    Store α × List (Event α) :=
  let r := subs.foldl (stepEv classifier labelSets ignore now) (⟨[], []⟩, [])
  (r.1, r.2 ++ [Event.complete] ++ embeddingsModel path r.1 ++ [Event.closeStore])

/-- Modelled from the spec: the croniter library (third-party, not part of
this repository) computes, for `croniter(expr, now).get_next(datetime)`, the
next scheduled instant strictly after `now`.  The cron expression is
modelled as a periodic schedule firing at every multiple of `period`
(seconds since the epoch, as naturals). -/
def cronNext (period now : Nat) : Nat := (now / period + 1) * period

/-- The argument of `time.sleep(schedule.timestamp() - time.time())` in
`Index.schedule`, with both clock reads modelled as the same instant `now`
(the loop body is modelled as executing instantaneously). -/
def sleepDuration (period now : Nat) : Int :=
  (cronNext period now : Int) - (now : Int)

/-- The configuration document loaded by `Index.run`, abstracted to the set
of top-level keys present in the YAML mapping. -/
structure ConfigDoc where
  keys : List (List Char)
deriving DecidableEq

/-- Python `"k" in index` on the loaded configuration mapping. -/
def hasKey (cfg : ConfigDoc) (k : List Char) : Bool := cfg.keys.contains k

/-- What `Index.run` does after loading the configuration: report a
configuration error and return (starting no run), enter the scheduling
loop, or execute a single run. -/
inductive RunOutcome where
  | configError : RunOutcome
  | scheduled : RunOutcome
  | singleRun : RunOutcome
deriving DecidableEq, Repr

/-- The dispatch logic of `Index.run`: missing `name` or `api` logs an error
and returns; otherwise `schedule` present selects the scheduling loop, else
a single `execute` run. -/
def runDispatch (cfg : ConfigDoc) : RunOutcome :=
  if !(hasKey cfg "name".data) || !(hasKey cfg "api".data) then .configError
  else if hasKey cfg "schedule".data then .scheduled
  else .singleRun

/-- A submission whose URL ends in "index.html" followed by a newline: its
normalized URL is "a\n", which is NOT a contiguous substring of the raw URL
(the normalizer removes the "index.html" from before the final newline), so
the LIKE-based duplicate check cannot see it later. -/
def newlineSub1 : Submission :=
  { id := "s1".data, url := "http://a/index.html".data ++ ['\n'], is_self := false,
    title := "t1".data, created_utc := 0, subreddit := "r".data }

/-- A second submission with the same normalized URL "a\n". -/
def newlineSub2 : Submission :=
  { id := "s2".data, url := "http://a".data ++ ['\n'], is_self := false,
    title := "t2".data, created_utc := 0, subreddit := "r".data }

/-- The scheme/`www` variants of the spec's claim "URLs differing only by a
leading `http://` or `https://` with optional `www.` prefix". -/
inductive SchemeV where
  | bare : SchemeV
  | http : SchemeV
  | https : SchemeV
  | httpWww : SchemeV
  | httpsWww : SchemeV

/-- The leading text contributed by each scheme variant. -/
def schemePart : SchemeV → List Char
  | .bare => []
  | .http => "http://".data
  | .https => "https://".data
  | .httpWww => "http://www.".data
  | .httpsWww => "https://www.".data

/-- The trailing variants of the spec's claim: nothing, trailing slashes, or
a trailing `index.html`/`index.htm` (optionally preceded by a slash). -/
inductive TrailV where
  | plain : TrailV
  | slashes : Nat → TrailV
  | slashIndexHtml : TrailV
  | slashIndexHtm : TrailV
  | indexHtml : TrailV
  | indexHtm : TrailV

/-- The trailing text contributed by each trailing variant. -/
def trailPart : TrailV → List Char
  | .plain => []
  | .slashes k => List.replicate k '/'
  | .slashIndexHtml => '/' :: "index.html".data
  | .slashIndexHtm => '/' :: "index.htm".data
  | .indexHtml => "index.html".data
  | .indexHtm => "index.htm".data

/-- The query-string variants of the spec's claim: no query string, or `?`
followed by arbitrary text. -/
inductive QueryV where
  | noQuery : QueryV
  | query : List Char → QueryV

/-- The trailing query text contributed by each query variant. -/
def queryPart : QueryV → List Char
  | .noQuery => []
  | .query r => '?' :: r

/-- A URL assembled from a core and the spec's claimed variance dimensions:
scheme/`www` prefix, trailing slash/`index.htm(l)`, query string. -/
def mkUrl (s : SchemeV) (core : List Char) (t : TrailV) (q : QueryV) : List Char :=
  (schemePart s ++ (core ++ trailPart t)) ++ queryPart q

/-- A core URL on which the claimed variance dimensions are orthogonal: it
contains no `'?'` and no `':'`, does not begin with `"www"`, and does not
itself end in a (possibly newline-shadowed) `index.htm(l)` or slash — i.e.
the features being varied are not already present inside the core, which is
what "URLs differing ONLY by ..." presupposes. -/
def clean (core : List Char) : Prop :=
  '?' ∉ core ∧ ':' ∉ core ∧ core.take 3 ≠ ['w', 'w', 'w'] ∧
    dropIndexHtm core = core ∧ dropSlash core = core

instance (core : List Char) : Decidable (clean core) := by
  unfold clean; infer_instance

/-- The restriction the counterexample to the claim forces: at most one
trailing slash (the code's `re.sub(r"\/?$", "", url)` removes a single
slash, not runs of slashes). -/
def trailOk : TrailV → Prop
  | .slashes k => k ≤ 1
  | _ => True

instance (t : TrailV) : Decidable (trailOk t) := by
  cases t <;> (unfold trailOk; infer_instance)

end Tldrstory

namespace Tldrstory

theorem dropParams_eq_self {l : List Char} (h : '?' ∉ l) : dropParams l = l := by
  induction l with
  | nil => rfl
  | cons c rest ih =>
      have hc : ¬ c = '?' := fun hc => h (by simp [hc])
      simp only [dropParams, if_neg hc]
      rw [ih (fun hm => h (List.mem_cons_of_mem _ hm))]

theorem dropParams_append_qmark {l : List Char} (r : List Char) (h : '?' ∉ l) :
    dropParams (l ++ '?' :: r) = l := by
  induction l with
  | nil => simp [dropParams]
  | cons c rest ih =>
      have hc : ¬ c = '?' := fun hc => h (by simp [hc])
      simp only [List.cons_append, dropParams, if_neg hc]
      exact congrArg (c :: ·) (ih (fun hm => h (List.mem_cons_of_mem _ hm)))

theorem dropParams_append_query {l : List Char} (q : QueryV) (h : '?' ∉ l) :
    dropParams (l ++ queryPart q) = l := by
  cases q with
  | noQuery => simpa [queryPart] using dropParams_eq_self h
  | query r => exact dropParams_append_qmark r h

theorem dropWww_eq_self {l : List Char}
    (h : ∀ c rest, l ≠ 'w' :: 'w' :: 'w' :: c :: rest) : dropWww l = l := by
  unfold dropWww
  split
  · next c rest => exact absurd rfl (h c rest)
  · rfl

theorem dropWww_append_eq {core X : List Char} (h3 : core.take 3 ≠ ['w', 'w', 'w'])
    (hw : 'w' ∉ X) : dropWww (core ++ X) = core ++ X := by
  apply dropWww_eq_self
  intro c rest heq
  rcases core with _ | ⟨a, core⟩
  · rw [List.nil_append] at heq
    exact hw (by rw [heq]; simp)
  · rcases core with _ | ⟨b, core⟩
    · rw [List.cons_append, List.nil_append] at heq
      injection heq with ha hX
      exact hw (by rw [hX]; simp)
    · rcases core with _ | ⟨d, core⟩
      · rw [List.cons_append, List.cons_append, List.nil_append] at heq
        injection heq with ha heq2
        injection heq2 with hb hX
        exact hw (by rw [hX]; simp)
      · rw [List.cons_append, List.cons_append, List.cons_append] at heq
        injection heq with ha heq2
        injection heq2 with hb heq3
        injection heq3 with hd heq4
        exact h3 (by subst ha hb hd; rfl)

theorem dropScheme_eq_self {l : List Char} (h : ':' ∉ l) : dropScheme l = l := by
  unfold dropScheme
  split
  · simp_all
  · simp_all
  · rfl

theorem dropScheme_http (r : List Char) : dropScheme ("http://".data ++ r) = dropWww r := rfl

theorem dropScheme_https (r : List Char) : dropScheme ("https://".data ++ r) = dropWww r := rfl

theorem dropScheme_httpWww (r : List Char) : dropScheme ("http://www.".data ++ r) = r := rfl

theorem dropScheme_httpsWww (r : List Char) : dropScheme ("https://www.".data ++ r) = r := rfl

theorem dropSlash_append_slash (z : List Char) : dropSlash (z ++ ['/']) = z := by
  simp [dropSlash, List.reverse_append]

theorem dropIndexHtm_append_slash (z : List Char) :
    dropIndexHtm (z ++ ['/']) = z ++ ['/'] := by
  have h : (z ++ ['/']).reverse = '/' :: z.reverse := by simp
  unfold dropIndexHtm
  rw [h]
  simp [dropIndexHtmRev]

theorem dropIndexHtm_append_slash_ihtml (z : List Char) :
    dropIndexHtm (z ++ ('/' :: "index.html".data)) = z ++ ['/'] := by
  have h : (z ++ ('/' :: "index.html".data)).reverse
      = 'l' :: 'm' :: 't' :: 'h' :: '.' :: 'x' :: 'e' :: 'd' :: 'n' :: 'i' :: '/' :: z.reverse := by
    simp [show "index.html".data = 'i' :: 'n' :: 'd' :: 'e' :: 'x' :: '.' :: 'h' :: 't' :: 'm' :: 'l' :: [] from rfl]
  unfold dropIndexHtm
  rw [h]
  simp [dropIndexHtmRev]

theorem dropIndexHtm_append_slash_ihtm (z : List Char) :
    dropIndexHtm (z ++ ('/' :: "index.htm".data)) = z ++ ['/'] := by
  have h : (z ++ ('/' :: "index.htm".data)).reverse
      = 'm' :: 't' :: 'h' :: '.' :: 'x' :: 'e' :: 'd' :: 'n' :: 'i' :: '/' :: z.reverse := by
    simp [show "index.htm".data = 'i' :: 'n' :: 'd' :: 'e' :: 'x' :: '.' :: 'h' :: 't' :: 'm' :: [] from rfl]
  unfold dropIndexHtm
  rw [h]
  simp [dropIndexHtmRev]

theorem dropIndexHtm_append_ihtml (z : List Char) :
    dropIndexHtm (z ++ "index.html".data) = z := by
  have h : (z ++ "index.html".data).reverse
      = 'l' :: 'm' :: 't' :: 'h' :: '.' :: 'x' :: 'e' :: 'd' :: 'n' :: 'i' :: z.reverse := by
    simp [show "index.html".data = 'i' :: 'n' :: 'd' :: 'e' :: 'x' :: '.' :: 'h' :: 't' :: 'm' :: 'l' :: [] from rfl]
  unfold dropIndexHtm
  rw [h]
  simp [dropIndexHtmRev]

theorem dropIndexHtm_append_ihtm (z : List Char) :
    dropIndexHtm (z ++ "index.htm".data) = z := by
  have h : (z ++ "index.htm".data).reverse
      = 'm' :: 't' :: 'h' :: '.' :: 'x' :: 'e' :: 'd' :: 'n' :: 'i' :: z.reverse := by
    simp [show "index.htm".data = 'i' :: 'n' :: 'd' :: 'e' :: 'x' :: '.' :: 'h' :: 't' :: 'm' :: [] from rfl]
  unfold dropIndexHtm
  rw [h]
  simp [dropIndexHtmRev]

end Tldrstory

namespace Tldrstory

theorem trail_no_qmark (t : TrailV) : '?' ∉ trailPart t := by
  cases t <;> intro hm <;> simp [trailPart, List.mem_replicate] at hm

theorem trail_no_colon (t : TrailV) : ':' ∉ trailPart t := by
  cases t <;> intro hm <;> simp [trailPart, List.mem_replicate] at hm

theorem trail_no_w (t : TrailV) : 'w' ∉ trailPart t := by
  cases t <;> intro hm <;> simp [trailPart, List.mem_replicate] at hm

theorem scheme_no_qmark (s : SchemeV) : '?' ∉ schemePart s := by
  cases s <;> decide

theorem dropScheme_schemePart (s : SchemeV) {core X : List Char} (hcol : ':' ∉ core)
    (h3 : core.take 3 ≠ ['w', 'w', 'w']) (hcolX : ':' ∉ X) (hwX : 'w' ∉ X) :
    dropScheme (schemePart s ++ (core ++ X)) = core ++ X := by
  cases s with
  | bare =>
      rw [show schemePart SchemeV.bare = [] from rfl, List.nil_append]
      apply dropScheme_eq_self
      intro hm
      rcases List.mem_append.mp hm with hm1 | hm2
      · exact hcol hm1
      · exact hcolX hm2
  | http => rw [show schemePart SchemeV.http = "http://".data from rfl, dropScheme_http,
      dropWww_append_eq h3 hwX]
  | https => rw [show schemePart SchemeV.https = "https://".data from rfl, dropScheme_https,
      dropWww_append_eq h3 hwX]
  | httpWww => rw [show schemePart SchemeV.httpWww = "http://www.".data from rfl,
      dropScheme_httpWww]
  | httpsWww => rw [show schemePart SchemeV.httpsWww = "https://www.".data from rfl,
      dropScheme_httpsWww]

theorem dropTail_trailPart {core : List Char} (t : TrailV) (hdih : dropIndexHtm core = core)
    (hdsl : dropSlash core = core) (htok : trailOk t) :
    dropSlash (dropIndexHtm (core ++ trailPart t)) = core := by
  cases t with
  | plain => rw [show trailPart TrailV.plain = [] from rfl, List.append_nil, hdih, hdsl]
  | slashes k =>
      match k, htok with
      | 0, _ =>
          rw [show trailPart (TrailV.slashes 0) = [] from rfl, List.append_nil, hdih, hdsl]
      | 1, _ =>
          rw [show trailPart (TrailV.slashes 1) = ['/'] from rfl, dropIndexHtm_append_slash,
            dropSlash_append_slash]
  | slashIndexHtml =>
      rw [show trailPart TrailV.slashIndexHtml = '/' :: "index.html".data from rfl,
        dropIndexHtm_append_slash_ihtml, dropSlash_append_slash]
  | slashIndexHtm =>
      rw [show trailPart TrailV.slashIndexHtm = '/' :: "index.htm".data from rfl,
        dropIndexHtm_append_slash_ihtm, dropSlash_append_slash]
  | indexHtml =>
      rw [show trailPart TrailV.indexHtml = "index.html".data from rfl,
        dropIndexHtm_append_ihtml, hdsl]
  | indexHtm =>
      rw [show trailPart TrailV.indexHtm = "index.htm".data from rfl,
        dropIndexHtm_append_ihtm, hdsl]

theorem baseurl_mkUrl (s : SchemeV) {core : List Char} (t : TrailV) (q : QueryV)
    (hc : clean core) (htok : trailOk t) : baseurl (mkUrl s core t q) = core := by
  obtain ⟨hq, hcol, h3, hdih, hdsl⟩ := hc
  have hqY : '?' ∉ schemePart s ++ (core ++ trailPart t) := by
    intro hm
    rcases List.mem_append.mp hm with hm1 | hm2
    · exact scheme_no_qmark s hm1
    · rcases List.mem_append.mp hm2 with hm3 | hm4
      · exact hq hm3
      · exact trail_no_qmark t hm4
  unfold baseurl mkUrl
  rw [dropParams_append_query q hqY,
    dropScheme_schemePart s hcol h3 (trail_no_colon t) (trail_no_w t),
    dropTail_trailPart t hdih hdsl htok]

end Tldrstory

namespace Tldrstory

/-- C2 (amended): normalize is invariant under the claimed URL variances —
query string, leading http(s):// with optional www., a trailing
index.html/index.htm (with or without a preceding slash), and AT MOST ONE
trailing slash (the code removes a single trailing slash, not runs of
slashes) — for any core URL on which these variance dimensions are
orthogonal (`clean`); and the three concrete examples normalize to
"example.com/a". -/
theorem claim2_normalize_variants :
    (∀ (s : SchemeV) (core : List Char) (t : TrailV) (q : QueryV),
        clean core → trailOk t → baseurl (mkUrl s core t q) = core) ∧
    baseurlS "https://www.example.com/a/index.html?x=1" = "example.com/a" ∧
    baseurlS "http://example.com/a/" = "example.com/a" ∧
    baseurlS "example.com/a" = "example.com/a" :=
  ⟨fun s core t q hc htok => baseurl_mkUrl s t q hc htok, by decide, by decide, by decide⟩

/-- C2 counterexample: "example.com/a//" and "example.com/a" differ only by
trailing slashes, yet normalize differently — the code removes exactly one
trailing slash, so the double slash leaves "example.com/a/". -/
theorem claim2_counterexample :
    clean "example.com/a".data ∧
    baseurl (mkUrl SchemeV.bare "example.com/a".data (TrailV.slashes 2) QueryV.noQuery)
      = "example.com/a/".data ∧
    baseurl (mkUrl SchemeV.bare "example.com/a".data TrailV.plain QueryV.noQuery)
      = "example.com/a".data ∧
    ("example.com/a/".data : List Char) ≠ "example.com/a".data := by
  refine ⟨by decide, by decide, by decide, by decide⟩

/-- C2 witness: the amended invariance theorem applied at a concrete scheme,
core, single-slash trail and query. -/
theorem claim2_witness :
    clean "example.com/a".data ∧ trailOk (TrailV.slashes 1) ∧
    baseurl (mkUrl SchemeV.httpsWww "example.com/a".data (TrailV.slashes 1)
      (QueryV.query "x=1".data)) = "example.com/a".data :=
  ⟨by decide, by decide,
    claim2_normalize_variants.1 SchemeV.httpsWww "example.com/a".data (TrailV.slashes 1)
      (QueryV.query "x=1".data) (by decide) (by decide)⟩

/-- C10 (amended): the dot in the normalizer's leading-prefix pattern
`^http(s)?://(www.)?` is an any-character wildcard, so for EVERY character c
other than '?' (consumed earlier by the query-string split) and newline
(which the regex dot does not match), baseurl("http://www" + c +
"example.com/a") = "example.com/a": hosts differing beyond the documented
protocol/www. variance collide to the same duplicate-comparison key. -/
theorem claim10_www_wildcard :
    ∀ c : Char, ¬ c = '?' → ¬ c = '\n' →
      baseurl ("http://www".data ++ c :: "example.com/a".data) = "example.com/a".data := by
  intro c hq hn
  have h1 : dropParams ("http://www".data ++ c :: "example.com/a".data)
      = "http://www".data ++ c :: "example.com/a".data := by
    apply dropParams_eq_self
    intro hm
    rcases List.mem_append.mp hm with hm1 | hm2
    · exact absurd hm1 (by decide)
    · rcases List.mem_cons.mp hm2 with hm3 | hm4
      · exact hq hm3.symm
      · exact absurd hm4 (by decide)
  have h2 : dropScheme ("http://www".data ++ c :: "example.com/a".data)
      = dropWww ('w' :: 'w' :: 'w' :: c :: "example.com/a".data) := rfl
  have h3 : dropWww ('w' :: 'w' :: 'w' :: c :: "example.com/a".data) = "example.com/a".data := by
    simp [dropWww, hn]
  unfold baseurl
  rw [h1, h2, h3]
  decide

/-- C10 counterexample: at c = '?' the claimed equation fails — the
query-string split runs first, leaving "http://www", which normalizes to
"www", not "example.com/a". -/
theorem claim10_counterexample :
    baseurl ("http://www".data ++ '?' :: "example.com/a".data) = "www".data ∧
    ("www".data : List Char) ≠ "example.com/a".data := by
  refine ⟨by decide, by decide⟩

/-- C10 witness: the amended wildcard theorem applied at c = 'z'. -/
theorem claim10_witness :
    ¬ ('z' = '?') ∧ ¬ ('z' = '\n') ∧
    baseurl ("http://www".data ++ 'z' :: "example.com/a".data) = "example.com/a".data :=
  ⟨by decide, by decide, claim10_www_wildcard 'z' (by decide) (by decide)⟩

end Tldrstory

namespace Tldrstory

/-- C1 (amended): accept(database, submission, ignore) returns true if and
only if all four conditions hold, where the reference condition is the SQL
LIKE comparison the code performs — no stored article has the submission's
id and no stored article's Reference matches the pattern '%' + normalized
base URL + '%' under SQLite LIKE semantics (ASCII case-insensitive, with %
and _ wildcards), NOT a literal substring test — the submission is not a
self-post, its URL starts with "http", and no ignore pattern matches
anywhere in the URL.  The iff gives in particular that each condition
failing alone forces the result false. -/
theorem claim1_accept_iff (articles : List Article) (s : Submission) (ignore : List Regex) :
    accept articles s ignore = true ↔
      ((∀ a ∈ articles, ¬ a.id = s.id ∧
          likeMatch (likePattern (baseurl s.url)) a.reference = false) ∧
       s.is_self = false ∧
       "http".data.isPrefixOf s.url = true ∧
       (∀ p ∈ ignore, rsearch p s.url = false)) := by
  simp [accept, dbHit, not_or, and_assoc]

/-- C1 counterexample: every condition exactly as the claim states it holds —
the ids differ, the stored Reference "EXAMPLE.COM/A" does NOT contain the
normalized URL "example.com/a" as a substring (case-sensitive), the
submission is an external http link, and the ignore list is empty — yet
accept returns false, because the SQL LIKE comparison is ASCII
case-insensitive. -/
theorem claim1_counterexample :
    accept [{ id := "abc".data, source := "r".data, date := 0, title := "t".data,
              reference := "EXAMPLE.COM/A".data, indexed := "ts".data }]
      { id := "xyz".data, url := "http://example.com/a".data, is_self := false,
        title := "t2".data, created_utc := 0, subreddit := "r".data } [] = false ∧
    ¬ ("abc".data : List Char) = "xyz".data ∧
    baseurl "http://example.com/a".data = "example.com/a".data ∧
    hasSubstring "example.com/a".data "EXAMPLE.COM/A".data = false := by
  refine ⟨by decide, by decide, by decide, by decide⟩

/-- C1 witness: the iff applied at an empty store and an acceptable
submission, giving accept = true. -/
theorem claim1_witness :
    accept []
      { id := "s".data, url := "http://x".data, is_self := false, title := "t".data,
        created_utc := 0, subreddit := "r".data } [] = true :=
  (claim1_accept_iff []
    { id := "s".data, url := "http://x".data, is_self := false,
      title := "t".data, created_utc := 0, subreddit := "r".data } []).mpr (by decide)

/-- C9: the duplicate check is an SQL LIKE match on '%' + normalized URL +
'%', not a literal substring test: for the stored Reference "exaXple.com"
and a submission whose normalized URL "exa_ple.com" contains '_', accept
returns false — the LIKE wildcard '_' matches the 'X' — even though the ids
differ and no stored Reference contains the normalized URL as a literal,
case-sensitive substring. -/
theorem claim9_like_not_substring :
    accept [{ id := "a1".data, source := "r".data, date := 0, title := "t".data,
              reference := "exaXple.com".data, indexed := "ts".data }]
      { id := "s1".data, url := "http://exa_ple.com".data, is_self := false,
        title := "t".data, created_utc := 0, subreddit := "r".data } [] = false ∧
    ¬ ("a1".data : List Char) = "s1".data ∧
    baseurl "http://exa_ple.com".data = "exa_ple.com".data ∧
    '_' ∈ "exa_ple.com".data ∧
    hasSubstring "exa_ple.com".data "exaXple.com".data = false := by
  refine ⟨by decide, by decide, by decide, by decide, by decide⟩

/-- C7: if the duplicate-lookup query fails, accept propagates the failure
to its caller and never returns a boolean; with a successful lookup it
returns exactly the accept decision (so a failure is never treated as "not
a duplicate"). -/
theorem claim7_lookup_failure_propagates :
    (∀ (e : List Char) (s : Submission) (ignore : List Regex),
        acceptChecked (Except.error e) s ignore = Except.error e ∧
        ∀ b : Bool, ¬ acceptChecked (Except.error e) s ignore = Except.ok b) ∧
    (∀ (articles : List Article) (s : Submission) (ignore : List Regex),
        acceptChecked (Except.ok (acceptQuery articles s)) s ignore
          = Except.ok (accept articles s ignore)) := by
  constructor
  · intro e s ignore
    refine ⟨rfl, ?_⟩
    intro b h
    exact Except.noConfusion h
  · intro articles s ignore
    by_cases hd : dbHit articles s = true
    · simp [acceptChecked, acceptQuery, accept, hd]
    · simp only [Bool.not_eq_true] at hd
      simp [acceptChecked, acceptQuery, accept, hd]

/-- C7 witness: the propagation theorem applied at a concrete error and
submission. -/
theorem claim7_witness :
    acceptChecked (Except.error "store unreachable".data)
      { id := "s".data, url := "http://x".data, is_self := false, title := "t".data,
        created_utc := 0, subreddit := "r".data }
      [] = Except.error "store unreachable".data ∧
    ¬ acceptChecked (Except.error "store unreachable".data)
      { id := "s".data, url := "http://x".data, is_self := false, title := "t".data,
        created_utc := 0, subreddit := "r".data }
      [] = Except.ok true :=
  ⟨(claim7_lookup_failure_propagates.1 "store unreachable".data
      { id := "s".data, url := "http://x".data, is_self := false, title := "t".data,
        created_utc := 0, subreddit := "r".data } []).1,
   (claim7_lookup_failure_propagates.1 "store unreachable".data
      { id := "s".data, url := "http://x".data, is_self := false, title := "t".data,
        created_utc := 0, subreddit := "r".data } []).2 true⟩

end Tldrstory

namespace Tldrstory

/-- C4: for each submission accepted by the filter, the loop persists — as
one logical unit, before the next submission is processed — an Article
record with the lowercased subreddit name as community, the parsed creation
timestamp, title, url, and the current ingestion timestamp, together with,
for each configured label set in configuration order, one (article-id,
label-set-name, classifier-row) tuple per classifier result in the order the
classifier returns them; a rejected submission causes no store change. -/
theorem claim4_process_submission {α : Type}
    (classifier : List Char → List (List Char) → List α)
    (labelSets : List (List Char × List (List Char))) (ignore : List Regex)
    (now : List Char) (db : Store α) (s : Submission) :
    (accept db.articles s ignore = true →
      processSubmission classifier labelSets ignore now db s =
        { articles := db.articles ++
            [{ id := s.id, source := lowerStr s.subreddit, date := s.created_utc,
               title := s.title, reference := s.url, indexed := now }],
          labels := db.labels ++ labelSets.flatMap fun nc =>
            (classifier s.title nc.2).map fun x => (s.id, nc.1, x) }) ∧
    (accept db.articles s ignore = false →
      processSubmission classifier labelSets ignore now db s = db) := by
  constructor
  · intro h
    simp [processSubmission, h, mkArticle, mkLabels]
  · intro h
    simp [processSubmission, h]

/-- C4 witness: one accepted submission against an empty store, with a
concrete classifier returning one row. -/
theorem claim4_witness :
    accept ([] : List Article)
      { id := "s1".data, url := "http://x".data, is_self := false, title := "t1".data,
        created_utc := 4, subreddit := "RRr".data } [] = true ∧
    processSubmission (fun _ _ => [(5 : Nat)]) [("topic".data, ["v1".data])] [] "now".data
      ⟨[], []⟩
      { id := "s1".data, url := "http://x".data, is_self := false, title := "t1".data,
        created_utc := 4, subreddit := "RRr".data } =
      { articles := [] ++
          [{ id := "s1".data, source := lowerStr "RRr".data, date := 4,
             title := "t1".data, reference := "http://x".data, indexed := "now".data }],
        labels := [] ++ [("topic".data, ["v1".data])].flatMap fun nc =>
          ((fun _ _ => [(5 : Nat)]) "t1".data nc.2).map fun x =>
            (("s1".data : List Char), nc.1, x) } :=
  ⟨by decide,
   (claim4_process_submission (fun _ _ => [(5 : Nat)]) [("topic".data, ["v1".data])] []
      "now".data ⟨[], []⟩
      { id := "s1".data, url := "http://x".data, is_self := false, title := "t1".data,
        created_utc := 4, subreddit := "RRr".data }).1 (by decide)⟩

/-- Every event accumulated by the per-submission fold of `Index.execute` on
top of an all-saves accumulator is a `database.save` call. -/
theorem stepEv_events_save {α : Type}
    (classifier : List Char → List (List Char) → List α)
    (labelSets : List (List Char × List (List Char))) (ignore : List Regex)
    (now : List Char) :
    ∀ (subs : List Submission) (acc : Store α × List (Event α)),
      (∀ e ∈ acc.2, isSaveRow e = true) →
      ∀ e ∈ (subs.foldl (stepEv classifier labelSets ignore now) acc).2,
        isSaveRow e = true := by
  intro subs
  induction subs with
  | nil => intro acc h; simpa using h
  | cons s rest ih =>
      intro acc h
      rw [List.foldl_cons]
      apply ih
      intro e he
      unfold stepEv at he
      by_cases hacc : accept acc.1.articles s ignore = true
      · rw [if_pos hacc] at he
        rcases List.mem_append.mp he with h1 | h2
        · exact h e h1
        · rw [List.mem_singleton.mp h2]; rfl
      · rw [if_neg hacc] at he
        exact h e he

/-- C5: after all submissions are processed, the trace of an `Index.execute`
run is: the per-submission save events, then the store-complete mark, then
one bulk embedding-index build over exactly the (id, title, no-metadata)
triples of all stored articles, then the index save to the configured path,
and only then the store close. -/
theorem claim5_execute_trace {α : Type}
    (classifier : List Char → List (List Char) → List α)
    (labelSets : List (List Char × List (List Char))) (ignore : List Regex)
    (now path : List Char) (subs : List Submission) :
    ∃ pre,
      (executeModel classifier labelSets ignore now path subs).2 =
        pre ++ [Event.complete,
          Event.indexBuild
            (((executeModel classifier labelSets ignore now path subs).1.articles).map
              fun a => (a.id, a.title, (none : Option Unit))),
          Event.indexSave path, Event.closeStore] ∧
      pre.all isSaveRow = true := by
  refine ⟨(subs.foldl (stepEv classifier labelSets ignore now)
    ((⟨[], []⟩ : Store α), ([] : List (Event α)))).2, ?_, ?_⟩
  · simp [executeModel, embeddingsModel]
  · rw [List.all_eq_true]
    exact stepEv_events_save classifier labelSets ignore now subs _
      (fun e he => absurd he (List.not_mem_nil e))

/-- C8: the entry point's dispatch — missing `name` or `api` is a
configuration error and no run (neither a single execution nor the
scheduling loop) is started; with both present, the scheduler is entered
exactly when `schedule` is present, otherwise a single run executes. -/
theorem claim8_run_dispatch (cfg : ConfigDoc) :
    (runDispatch cfg = RunOutcome.configError ↔
       (hasKey cfg "name".data = false ∨ hasKey cfg "api".data = false)) ∧
    (runDispatch cfg = RunOutcome.scheduled ↔
       (hasKey cfg "name".data = true ∧ hasKey cfg "api".data = true ∧
        hasKey cfg "schedule".data = true)) ∧
    (runDispatch cfg = RunOutcome.singleRun ↔
       (hasKey cfg "name".data = true ∧ hasKey cfg "api".data = true ∧
        hasKey cfg "schedule".data = false)) := by
  unfold runDispatch
  by_cases h1 : hasKey cfg "name".data = true <;>
    by_cases h2 : hasKey cfg "api".data = true <;>
      by_cases h3 : hasKey cfg "schedule".data = true <;>
        simp [h1, h2, h3]

/-- C6: on each scheduler iteration the next run instant computed from the
cron schedule is strictly after now, and the sleep duration handed to the
blocking wait equals that instant minus the current time and is never
negative. -/
theorem claim6_schedule_next (period now : Nat) (hp : 0 < period) :
    now < cronNext period now ∧
    sleepDuration period now = (cronNext period now : Int) - (now : Int) ∧
    0 ≤ sleepDuration period now := by
  have h1 : now < cronNext period now := by
    calc now = period * (now / period) + now % period := (Nat.div_add_mod now period).symm
    _ < period * (now / period) + period := Nat.add_lt_add_left (Nat.mod_lt now hp) _
    _ = (now / period + 1) * period := by ring
  refine ⟨h1, rfl, ?_⟩
  have h2 : (now : Int) ≤ (cronNext period now : Int) := by exact_mod_cast Nat.le_of_lt h1
  exact sub_nonneg.mpr h2

/-- C6 witness: the scheduling theorem at period 3, now 7. -/
theorem claim6_witness :
    (7 : Nat) < cronNext 3 7 ∧
    sleepDuration 3 7 = (cronNext 3 7 : Int) - (7 : Int) ∧
    0 ≤ sleepDuration 3 7 :=
  claim6_schedule_next 3 7 (by decide)

end Tldrstory

namespace Tldrstory

theorem dropParams_prefix (l : List Char) : ∃ y, l = dropParams l ++ y := by
  induction l with
  | nil => exact ⟨[], rfl⟩
  | cons c rest ih =>
      by_cases hc : c = '?'
      · exact ⟨c :: rest, by simp [dropParams, hc]⟩
      · obtain ⟨y, hy⟩ := ih
        refine ⟨y, ?_⟩
        simp only [dropParams, if_neg hc, List.cons_append]
        exact congrArg (c :: ·) hy

theorem dropWww_suffix (l : List Char) : ∃ x, l = x ++ dropWww l := by
  unfold dropWww
  split
  · next c rest =>
      by_cases hn : c = '\n'
      · rw [if_pos hn]; exact ⟨[], rfl⟩
      · rw [if_neg hn]; exact ⟨['w', 'w', 'w', c], rfl⟩
  · exact ⟨[], rfl⟩

theorem dropScheme_suffix (l : List Char) : ∃ x, l = x ++ dropScheme l := by
  unfold dropScheme
  split
  · next rest =>
      obtain ⟨x, hx⟩ := dropWww_suffix rest
      refine ⟨'h' :: 't' :: 't' :: 'p' :: 's' :: ':' :: '/' :: '/' :: x, ?_⟩
      simp only [List.cons_append]
      exact congrArg (fun z => 'h' :: 't' :: 't' :: 'p' :: 's' :: ':' :: '/' :: '/' :: z) hx
  · next rest =>
      obtain ⟨x, hx⟩ := dropWww_suffix rest
      refine ⟨'h' :: 't' :: 't' :: 'p' :: ':' :: '/' :: '/' :: x, ?_⟩
      simp only [List.cons_append]
      exact congrArg (fun z => 'h' :: 't' :: 't' :: 'p' :: ':' :: '/' :: '/' :: z) hx
  · exact ⟨[], rfl⟩

theorem dropIndexHtmRev_decomp {v r : List Char} (h : dropIndexHtmRev v = some r) :
    ∃ p, v = p ++ r := by
  unfold dropIndexHtmRev at h
  split at h
  · simp at h
  · next a rest =>
      by_cases ha : a = 'l'
      · rw [if_pos ha] at h
        split at h
        · next b c d e f g hh i j rest2 =>
            split at h
            · injection h with hr
              subst hr
              exact ⟨a :: b :: c :: d :: e :: f :: g :: hh :: i :: j :: [], rfl⟩
            · simp at h
        · simp at h
      · rw [if_neg ha] at h
        by_cases ha2 : a = 'm'
        · rw [if_pos ha2] at h
          split at h
          · next b c d e f g hh i rest2 =>
              split at h
              · injection h with hr
                subst hr
                exact ⟨a :: b :: c :: d :: e :: f :: g :: hh :: i :: [], rfl⟩
              · simp at h
          · simp at h
        · rw [if_neg ha2] at h
          simp at h

theorem dropIndexHtm_prefix {l : List Char} (hnl : '\n' ∉ l) :
    ∃ y, l = dropIndexHtm l ++ y := by
  unfold dropIndexHtm
  split
  · exact ⟨[], by simp⟩
  · next c rest heq =>
      have hc : ¬ c = '\n' := fun hcc => hnl (by
        rw [← List.mem_reverse, heq, hcc]; exact List.mem_cons_self _ _)
      rw [if_neg hc]
      split
      · next r heq2 =>
          obtain ⟨p, hp⟩ := dropIndexHtmRev_decomp heq2
          refine ⟨p.reverse, ?_⟩
          have hl : l = (c :: rest).reverse := by rw [← heq, List.reverse_reverse]
          rw [hl, hp, List.reverse_append]
      · exact ⟨[], by simp⟩

theorem dropSlash_prefix {l : List Char} (hnl : '\n' ∉ l) :
    ∃ y, l = dropSlash l ++ y := by
  unfold dropSlash
  split
  · next rest heq =>
      refine ⟨['/'], ?_⟩
      have hl : l = ('/' :: rest).reverse := by rw [← heq, List.reverse_reverse]
      rw [hl]
      simp
  · next rest heq =>
      exact absurd (by rw [← List.mem_reverse, heq]; exact List.mem_cons_self _ _) hnl
  · exact ⟨[], by simp⟩

theorem baseurl_decomp {u : List Char} (hnl : '\n' ∉ u) :
    ∃ x y, u = x ++ (baseurl u ++ y) := by
  obtain ⟨y1, hy1⟩ := dropParams_prefix u
  have hnlP : '\n' ∉ dropParams u := fun hm => hnl (by rw [hy1]; exact List.mem_append_left _ hm)
  obtain ⟨x2, hx2⟩ := dropScheme_suffix (dropParams u)
  have hnlS : '\n' ∉ dropScheme (dropParams u) := fun hm =>
    hnlP (by rw [hx2]; exact List.mem_append_right _ hm)
  obtain ⟨y3, hy3⟩ := dropIndexHtm_prefix hnlS
  have hnlT : '\n' ∉ dropIndexHtm (dropScheme (dropParams u)) := fun hm =>
    hnlS (by rw [hy3]; exact List.mem_append_left _ hm)
  obtain ⟨y4, hy4⟩ := dropSlash_prefix hnlT
  refine ⟨x2, y4 ++ y3 ++ y1, ?_⟩
  calc u = dropParams u ++ y1 := hy1
    _ = (x2 ++ dropScheme (dropParams u)) ++ y1 := congrArg (· ++ y1) hx2
    _ = (x2 ++ (dropIndexHtm (dropScheme (dropParams u)) ++ y3)) ++ y1 :=
        congrArg (fun z => (x2 ++ z) ++ y1) hy3
    _ = (x2 ++ ((dropSlash (dropIndexHtm (dropScheme (dropParams u))) ++ y4) ++ y3)) ++ y1 :=
        congrArg (fun z => (x2 ++ (z ++ y3)) ++ y1) hy4
    _ = x2 ++ (baseurl u ++ (y4 ++ y3 ++ y1)) := by simp [baseurl, List.append_assoc]

theorem likeMatch_pct (t : List Char) : likeMatch ['%'] t = true := by
  simp only [likeMatch, if_pos, List.any_eq_true]
  exact ⟨[], (List.mem_tails _ _).mpr (List.nil_suffix), rfl⟩

theorem likeMatch_self_pct (b y : List Char) : likeMatch (b ++ ['%']) (b ++ y) = true := by
  induction b generalizing y with
  | nil => simpa using likeMatch_pct y
  | cons c b' ih =>
      rw [List.cons_append, List.cons_append]
      by_cases hc : c = '%'
      · subst hc
        simp only [likeMatch, if_pos, List.any_eq_true]
        exact ⟨b' ++ y, (List.mem_tails _ _).mpr ⟨['%'], rfl⟩, ih y⟩
      · simp only [likeMatch, if_neg hc]
        show ((if c = '_' then true else charLower c == charLower c) &&
          likeMatch (b' ++ ['%']) (b' ++ y)) = true
        rw [Bool.and_eq_true]
        refine ⟨?_, ih y⟩
        by_cases hu : c = '_'
        · rw [if_pos hu]
        · rw [if_neg hu]
          exact beq_self_eq_true (charLower c)

theorem likeMatch_of_decomp {t b : List Char} (x y : List Char) (h : t = x ++ (b ++ y)) :
    likeMatch (likePattern b) t = true := by
  subst h
  simp only [likePattern, likeMatch, if_pos, List.any_eq_true]
  exact ⟨b ++ y, (List.mem_tails _ _).mpr ⟨x, rfl⟩, likeMatch_self_pct b y⟩

theorem accept_no_dup {articles : List Article} {s : Submission} {ignore : List Regex}
    (hacc : accept articles s ignore = true) {a : Article} (ha : a ∈ articles)
    (hnl : '\n' ∉ a.reference) : ¬ baseurl a.reference = baseurl s.url := by
  intro heq
  obtain ⟨x, y, hd⟩ := baseurl_decomp hnl
  have hlm : likeMatch (likePattern (baseurl s.url)) a.reference = true := by
    apply likeMatch_of_decomp x y
    rw [hd, heq]
  have hdb : dbHit articles s = true := by
    rw [dbHit, List.any_eq_true]
    exact ⟨a, ha, by rw [hlm]; simp⟩
  simp [accept, hdb] at hacc

end Tldrstory

namespace Tldrstory

/-- The ingestion loop preserves, over newline-free submissions, both
newline-freeness of stored references and pairwise distinctness of the
stored normalized URLs. -/
theorem ingest_distinct {α : Type} (classifier : List Char → List (List Char) → List α)
    (labelSets : List (List Char × List (List Char))) (ignore : List Regex)
    (now : List Char) :
    ∀ (subs : List Submission) (db : Store α),
      (∀ s ∈ subs, '\n' ∉ s.url) →
      (∀ a ∈ db.articles, '\n' ∉ a.reference) →
      db.articles.Pairwise (fun a b => ¬ baseurl a.reference = baseurl b.reference) →
      ((∀ a ∈ (ingest classifier labelSets ignore now subs db).articles, '\n' ∉ a.reference) ∧
        (ingest classifier labelSets ignore now subs db).articles.Pairwise
          (fun a b => ¬ baseurl a.reference = baseurl b.reference)) := by
  intro subs
  induction subs with
  | nil => intro db hs hn hp; exact ⟨hn, hp⟩
  | cons s rest ih =>
      intro db hs hn hp
      rw [ingest]
      apply ih
      · intro s2 hs2
        exact hs s2 (List.mem_cons_of_mem _ hs2)
      · unfold processSubmission
        split
        · intro a ha
          rcases List.mem_append.mp ha with h1 | h2
          · exact hn a h1
          · rw [List.mem_singleton.mp h2]
            exact hs s (List.mem_cons_self _ _)
        · exact hn
      · unfold processSubmission
        split
        · next hacc =>
            rw [List.pairwise_append]
            refine ⟨hp, List.pairwise_singleton _ _, ?_⟩
            intro a ha b hb
            rw [List.mem_singleton.mp hb]
            exact accept_no_dup hacc ha (hn a ha)
        · exact hp

/-- C3 (amended): in every store state reachable by the single-threaded
ingestion loop from an empty store, PROVIDED no processed submission's URL
contains a newline character, no two persisted Articles have the same
normalized URL: the filter's LIKE check (the normalized URL is then a
contiguous substring of the stored raw-URL Reference) rejects any later
submission whose normalized URL equals that of a stored article. -/
theorem claim3_unique_normalized {α : Type}
    (classifier : List Char → List (List Char) → List α)
    (labelSets : List (List Char × List (List Char))) (ignore : List Regex)
    (now : List Char) (subs : List Submission) (hsub : ∀ s ∈ subs, '\n' ∉ s.url) :
    (ingest classifier labelSets ignore now subs ⟨[], []⟩).articles.Pairwise
      (fun a b => ¬ baseurl a.reference = baseurl b.reference) :=
  (ingest_distinct classifier labelSets ignore now subs ⟨[], []⟩ hsub
    (fun a ha => absurd ha (List.not_mem_nil a)) List.Pairwise.nil).2

/-- C3 counterexample: with newline-containing URLs the invariant fails in a
reachable state.  "http://a/index.html\n" normalizes to "a\n" (the
index.html is removed from BEFORE the final newline, so "a\n" is not a
contiguous substring of the stored Reference and the LIKE check cannot see
it); "http://a\n" also normalizes to "a\n" and is accepted, leaving two
stored articles with the same normalized URL. -/
theorem claim3_counterexample :
    ((ingest (fun _ _ => ([] : List Unit)) [] [] "ts".data [newlineSub1, newlineSub2]
        ⟨[], []⟩).articles.map fun a => baseurl a.reference)
      = [('a' :: '\n' :: []), ('a' :: '\n' :: [])] ∧
    ¬ (ingest (fun _ _ => ([] : List Unit)) [] [] "ts".data [newlineSub1, newlineSub2]
        ⟨[], []⟩).articles.Pairwise
      (fun a b => ¬ baseurl a.reference = baseurl b.reference) := by
  refine ⟨by decide, by decide⟩

/-- C3 witness: the amended invariant applied to two concrete newline-free
submissions, both accepted. -/
theorem claim3_witness :
    (ingest (fun _ _ => ([] : List Unit)) [] [] "ts".data
      [{ id := "s1".data, url := "http://a".data, is_self := false, title := "t1".data,
         created_utc := 0, subreddit := "r".data },
       { id := "s2".data, url := "http://b".data, is_self := false, title := "t2".data,
         created_utc := 0, subreddit := "r".data }]
      ⟨[], []⟩).articles.Pairwise
      (fun a b => ¬ baseurl a.reference = baseurl b.reference) :=
  claim3_unique_normalized (fun _ _ => ([] : List Unit)) [] [] "ts".data
    [{ id := "s1".data, url := "http://a".data, is_self := false, title := "t1".data,
       created_utc := 0, subreddit := "r".data },
     { id := "s2".data, url := "http://b".data, is_self := false, title := "t2".data,
       created_utc := 0, subreddit := "r".data }] (by decide)

end Tldrstory
